import Mathlib

/-!
Verification development for the Mak macro runner (src/main.py).

The definitions below are a shallow embedding of the functions of the
source file src/src/main.py: the name sanitizer sanitize_name, the inline
placeholder extraction of run_macro (lines 398 to 400), the interactive
argument-collection loop (lines 402 to 410), template rendering via the
Python format call (lines 422 to 429), the shell-emission loop with its
cd canonicalisation regex (lines 432 to 444), the direct execution branch
(lines 446 to 459) and the surrounding orchestration of run_macro.
Strings are modelled through their character lists; external effects
(the interactive selector, the value prompt, the sub-process runner) are
passed in as functions.
-/

/-! ## Name sanitizer (sanitize_name, src/main.py lines 21 to 37) -/

/-- Character class of the regex [ _]: a space or an underscore. -/
def isSpacerChar (c : Char) : Bool := decide (c.toNat = 32 ∨ c.toNat = 95)

/-- Characters kept by the regex deletion step [^a-zA-Z0-9-]:
ASCII letters, digits and the hyphen (codepoints compared numerically,
exactly as the regex ranges do). -/
def keepChar (c : Char) : Bool :=
  decide ((97 ≤ c.toNat ∧ c.toNat ≤ 122) ∨ (65 ≤ c.toNat ∧ c.toNat ≤ 90) ∨
    (48 ≤ c.toNat ∧ c.toNat ≤ 57) ∨ c.toNat = 45)

/-- Test for an ASCII uppercase letter. -/
def isUpperAscii (c : Char) : Bool := decide (65 ≤ c.toNat ∧ c.toNat ≤ 90)

/-- ASCII lower-casing. After the deletion step only ASCII letters, digits
and hyphens remain, so on the sanitized material this agrees with the
Python str.lower call. -/
def lowerChar (c : Char) : Char :=
  if 65 ≤ c.toNat ∧ c.toNat ≤ 90 then Char.ofNat (c.toNat + 32) else c

/-- One pass of re.sub(r"[ _]+", "-", name): each maximal run of spaces
and underscores becomes a single hyphen. The boolean flag records whether
the previous character belonged to such a run (so that the run produces
only one hyphen). -/
def collapseAux : Bool → List Char → List Char
  | _, [] => []
  | inRun, c :: cs =>
    if isSpacerChar c then
      if inRun then collapseAux true cs else '-' :: collapseAux true cs
    else c :: collapseAux false cs

/-- Replacement of every maximal run of spaces/underscores by one hyphen. -/
def collapseSpacers (l : List Char) : List Char := collapseAux false l

/-- List-level body of sanitize_name: collapse space/underscore runs to
hyphens, delete every character that is not an ASCII letter, digit or
hyphen, then lower-case. -/
def sanitizeList (l : List Char) : List Char :=
  ((collapseSpacers l).filter keepChar).map lowerChar

/-- Embedding of sanitize_name (src/main.py lines 21 to 37). -/
def sanitize_name (s : String) : String := String.mk (sanitizeList s.data)

/-! ### Character-level lemmas for the sanitizer -/

theorem charOfNat_toNat (n : Nat) (hlt : n < 55296) : (Char.ofNat n).toNat = n := by
  unfold Char.ofNat
  have hv : n.isValidChar := Or.inl hlt
  rw [dif_pos hv]
  simp [Char.ofNatAux, Char.toNat, Nat.toUInt32, UInt32.ofNat, Fin.ofNat, UInt32.toNat,
    BitVec.toNat_ofNatLt]

/-- Characters produced by the sanitizer: lowercase ASCII letter, digit or
hyphen. -/
def isCanonChar (c : Char) : Bool :=
  decide ((97 ≤ c.toNat ∧ c.toNat ≤ 122) ∨ (48 ≤ c.toNat ∧ c.toNat ≤ 57) ∨ c.toNat = 45)

theorem lowerChar_canon {c : Char} (h : keepChar c = true) :
    isCanonChar (lowerChar c) = true := by
  unfold keepChar at h
  unfold lowerChar isCanonChar
  by_cases hc : 65 ≤ c.toNat ∧ c.toNat ≤ 90
  · rw [if_pos hc]
    have := charOfNat_toNat (c.toNat + 32) (by omega)
    simp only [this]
    simp only [decide_eq_true_eq]
    omega
  · rw [if_neg hc]
    simp only [decide_eq_true_eq] at h ⊢
    omega

theorem canon_not_spacer {c : Char} (h : isCanonChar c = true) : isSpacerChar c = false := by
  unfold isCanonChar at h
  unfold isSpacerChar
  simp only [decide_eq_true_eq] at h ⊢
  simp only [decide_eq_false_iff_not]
  omega

theorem canon_keep {c : Char} (h : isCanonChar c = true) : keepChar c = true := by
  unfold isCanonChar at h
  unfold keepChar
  simp only [decide_eq_true_eq] at h ⊢
  omega

theorem canon_not_upper {c : Char} (h : isCanonChar c = true) :
    ¬ (65 ≤ c.toNat ∧ c.toNat ≤ 90) := by
  unfold isCanonChar at h
  simp only [decide_eq_true_eq] at h
  omega

theorem lowerChar_canon_id {c : Char} (h : isCanonChar c = true) : lowerChar c = c := by
  unfold lowerChar
  exact if_neg (canon_not_upper h)

/-- Every character of a sanitized character list is canonical. -/
theorem sanitizeList_chars (l : List Char) :
    ∀ c ∈ sanitizeList l, isCanonChar c = true := by
  intro c hc
  unfold sanitizeList at hc
  simp only [List.mem_map] at hc
  obtain ⟨c0, hc0, rfl⟩ := hc
  exact lowerChar_canon (List.of_mem_filter hc0)

/-- Every character of a sanitized name is canonical. -/
theorem sanitize_name_chars (s : String) :
    ∀ c ∈ (sanitize_name s).data, isCanonChar c = true := by
  intro c hc
  exact sanitizeList_chars s.data c hc

theorem collapseAux_id {l : List Char} (h : ∀ c ∈ l, isSpacerChar c = false) :
    ∀ b, collapseAux b l = l := by
  induction l with
  | nil => intro b; rfl
  | cons c cs ih =>
    intro b
    unfold collapseAux
    rw [h c (List.mem_cons_self c cs)]
    simp only [Bool.false_eq_true, if_false]
    rw [ih (fun c hc => h c (List.mem_cons_of_mem _ hc))]

theorem map_lowerChar_id {l : List Char} (h : ∀ c ∈ l, isCanonChar c = true) :
    l.map lowerChar = l := by
  induction l with
  | nil => rfl
  | cons c cs ih =>
    simp only [List.map_cons]
    rw [lowerChar_canon_id (h c (List.mem_cons_self c cs)),
      ih (fun c hc => h c (List.mem_cons_of_mem _ hc))]

/-- On a list of canonical characters, the sanitizing pass is the
identity. -/
theorem sanitizeList_fix {l : List Char} (h : ∀ c ∈ l, isCanonChar c = true) :
    sanitizeList l = l := by
  unfold sanitizeList collapseSpacers
  rw [collapseAux_id (fun c hc => canon_not_spacer (h c hc)) false]
  rw [List.filter_eq_self.mpr (fun c hc => canon_keep (h c hc))]
  exact map_lowerChar_id h

/-- Claim C7: the name sanitizer is idempotent, and the documented example
value holds: sanitize("My Macro_Name!") equals "my-macro-name". -/
theorem c7_sanitize_idempotent :
    (∀ x : String, sanitize_name (sanitize_name x) = sanitize_name x) ∧
    sanitize_name "My Macro_Name!" = "my-macro-name" := by
  constructor
  · intro x
    have h1 : sanitize_name (sanitize_name x) =
        String.mk (sanitizeList (sanitizeList x.data)) := rfl
    rw [h1, sanitizeList_fix (sanitizeList_chars x.data)]
    rfl
  · decide

/-! ## Placeholder extraction (run_macro, src/main.py lines 398 to 400)

The source collects re.findall with the pattern of an opening brace, one
or more digits, and a closing brace, over every command template, and
returns the sorted set of the parsed integers. The scan below walks the
character list; on an opening brace it tests whether a maximal digit run
followed by a closing brace starts there and, if so, records the parsed
number. It then always continues one character further: this is
equivalent to the regex resumption after a match, because a match can
only begin at an opening brace and a matched region contains no further
opening brace. -/

/-- Numeric value of a digit list (most significant first), as int() on
the matched group. -/
def natOfDigits (ds : List Char) : Nat :=
  ds.foldl (fun a c => 10 * a + (c.toNat - 48)) 0

/-- All placeholder indices found in one template, in match order and with
repetitions, as re.findall produces them. -/
def scanIndices : List Char → List Nat
  | [] => []
  | c :: rest =>
    if c = '{' then
      match rest.dropWhile Char.isDigit with
      | '}' :: _ =>
        if rest.takeWhile Char.isDigit = [] then scanIndices rest
        else natOfDigits (rest.takeWhile Char.isDigit) :: scanIndices rest
      | _ => scanIndices rest
    else scanIndices rest

/-- Insertion into a strictly sorted list, keeping it sorted and without
duplicates. Folding it over the found indices realises sorted(set(...)). -/
def insertSorted (n : Nat) : List Nat → List Nat
  | [] => [n]
  | m :: ms => if n < m then n :: m :: ms else if n = m then m :: ms else m :: insertSorted n ms

/-- Embedding of the arg_indices computation of run_macro: the distinct
placeholder indices of all templates of the macro, in ascending order. -/
def extract_indices (templates : List String) : List Nat :=
  ((templates.map (fun t => scanIndices t.data)).flatten).foldr insertSorted []

theorem mem_insertSorted (n a : Nat) (l : List Nat) :
    a ∈ insertSorted n l ↔ a = n ∨ a ∈ l := by
  induction l with
  | nil => simp [insertSorted]
  | cons m ms ih =>
    unfold insertSorted
    by_cases h1 : n < m
    · simp [h1]
    · rw [if_neg h1]
      by_cases h2 : n = m
      · subst h2
        simp only [if_pos rfl]
        constructor
        · intro h; exact Or.inr h
        · intro h
          rcases h with h | h
          · subst h; exact List.mem_cons_self _ _
          · exact h
      · rw [if_neg h2]
        simp only [List.mem_cons, ih]
        tauto

theorem sorted_insertSorted (n : Nat) {l : List Nat}
    (h : List.Sorted (· < ·) l) : List.Sorted (· < ·) (insertSorted n l) := by
  induction l with
  | nil => simp [insertSorted]
  | cons m ms ih =>
    rw [List.sorted_cons] at h
    obtain ⟨hm, hms⟩ := h
    unfold insertSorted
    by_cases h1 : n < m
    · rw [if_pos h1, List.sorted_cons]
      refine ⟨?_, ?_⟩
      · intro b hb
        rcases List.mem_cons.mp hb with hb | hb
        · omega
        · have := hm b hb; omega
      · rw [List.sorted_cons]; exact ⟨hm, hms⟩
    · rw [if_neg h1]
      by_cases h2 : n = m
      · rw [if_pos h2, List.sorted_cons]; exact ⟨hm, hms⟩
      · rw [if_neg h2, List.sorted_cons]
        refine ⟨?_, ih hms⟩
        intro b hb
        rcases (mem_insertSorted n b ms).mp hb with hb | hb
        · omega
        · exact hm b hb

theorem sorted_foldr_insertSorted (l : List Nat) :
    List.Sorted (· < ·) (l.foldr insertSorted []) := by
  induction l with
  | nil => simp
  | cons x xs ih => exact sorted_insertSorted x ih

theorem mem_foldr_insertSorted (l : List Nat) (a : Nat) :
    a ∈ l.foldr insertSorted [] ↔ a ∈ l := by
  induction l with
  | nil => simp
  | cons x xs ih =>
    simp only [List.foldr_cons, mem_insertSorted, ih, List.mem_cons]

theorem extract_indices_sorted (ts : List String) :
    List.Sorted (· < ·) (extract_indices ts) :=
  sorted_foldr_insertSorted _

theorem mem_extract_indices (ts : List String) (n : Nat) :
    n ∈ extract_indices ts ↔ ∃ t ∈ ts, n ∈ scanIndices t.data := by
  unfold extract_indices
  rw [mem_foldr_insertSorted]
  simp only [List.mem_flatten, List.mem_map]
  constructor
  · rintro ⟨l, ⟨t, ht, rfl⟩, hn⟩
    exact ⟨t, ht, hn⟩
  · rintro ⟨t, ht, hn⟩
    exact ⟨scanIndices t.data, ⟨t, ht, rfl⟩, hn⟩

/-- Prefixing any character preserves membership in the scan result: the
scan of the extended list always recurses on the original tail, possibly
contributing one extra match at the new head. -/
theorem mem_scanIndices_cons {n : Nat} {rest : List Char} (c : Char)
    (h : n ∈ scanIndices rest) : n ∈ scanIndices (c :: rest) := by
  unfold scanIndices
  by_cases hc : c = '{'
  · rw [if_pos hc]
    split
    · split
      · exact h
      · exact List.mem_cons_of_mem _ h
    · exact h
  · rw [if_neg hc]
    exact h

theorem mem_scanIndices_append {n : Nat} (a : List Char) {b : List Char}
    (h : n ∈ scanIndices b) : n ∈ scanIndices (a ++ b) := by
  induction a with
  | nil => exact h
  | cons c cs ih => exact mem_scanIndices_cons c ih

/-- A well-formed single-digit placeholder occurring anywhere in a
template is always found by the scan. -/
theorem scanIndices_finds_digit (pre : List Char) (d : Char) (post : List Char)
    (hd : d.isDigit = true) :
    natOfDigits [d] ∈ scanIndices (pre ++ '{' :: d :: '}' :: post) := by
  induction pre with
  | nil =>
    simp only [List.nil_append]
    unfold scanIndices
    rw [if_pos rfl]
    rw [List.dropWhile_cons, if_pos hd, List.dropWhile_cons]
    have hnd : Char.isDigit '}' = false := by decide
    rw [hnd]
    simp only [Bool.false_eq_true, if_false]
    rw [List.takeWhile_cons, if_pos hd, List.takeWhile_cons, hnd]
    simp only [Bool.false_eq_true, if_false]
    exact List.mem_cons_self _ _
  | cons c cs ih =>
    exact mem_scanIndices_cons c ih

/-- A strictly sorted list over at most the values 0 and 1 that contains
both of them is exactly [0, 1]. -/
theorem sorted_le_one_eq {l : List Nat} (hs : List.Sorted (· < ·) l)
    (hb : ∀ n ∈ l, n ≤ 1) (h0 : 0 ∈ l) (h1 : 1 ∈ l) : l = [0, 1] := by
  rcases l with _ | ⟨a, _ | ⟨b, _ | ⟨c, rest⟩⟩⟩
  · simp at h0
  · simp only [List.mem_singleton] at h0 h1
    omega
  · rw [List.sorted_cons] at hs
    have hab : a < b := hs.1 b (List.mem_cons_self _ _)
    have hb1 : b ≤ 1 := hb b (by simp)
    simp only [List.mem_cons, List.not_mem_nil, or_false] at h0 h1
    have ha : a = 0 := by omega
    have hbv : b = 1 := by omega
    rw [ha, hbv]
  · rw [List.sorted_cons, List.sorted_cons] at hs
    have hab : a < b := hs.1 b (by simp)
    have hbc : b < c := hs.2.1 c (by simp)
    have hc1 : c ≤ 1 := hb c (by simp)
    omega

/-- Claim C6 (counterexample to the literal statement): the template list
["{0}{1}{0}{2}"] contains the text of the three placeholders 0, 1, 0 as a
sub-segment, yet extraction returns [0, 1, 2], not [0, 1]. -/
theorem c6_counterexample :
    ("{0}{1}{0}{2}").data =
      ('{' :: '0' :: '}' :: '{' :: '1' :: '}' :: '{' :: '0' :: '}' :: []) ++ ("{2}").data ∧
    extract_indices ["{0}{1}{0}{2}"] = [0, 1, 2] ∧
    extract_indices ["{0}{1}{0}{2}"] ≠ [0, 1] := by
  refine ⟨by decide, by decide, by decide⟩

/-- Claim C6 (amended): for every ordered sequence of command templates the
extractor returns the union of all integer placeholder indices found
across the templates, de-duplicated and in ascending numeric order, with
non-integer bracket content not matched (such content contributes no
index to the scan); and any template list whose placeholder indices are
all 0 or 1 and that contains the text of the placeholders 0, 1, 0 in a
row yields exactly [0, 1], regardless of repetition or order of first
appearance. -/
theorem c6_extract_indices_spec :
    (∀ ts : List String, List.Sorted (· < ·) (extract_indices ts) ∧
      ∀ n, (n ∈ extract_indices ts ↔ ∃ t ∈ ts, n ∈ scanIndices t.data)) ∧
    (∀ ts : List String,
      (∀ t ∈ ts, ∀ n ∈ scanIndices t.data, n ≤ 1) →
      (∃ t ∈ ts, ∃ pre post, t.data =
        pre ++ '{' :: '0' :: '}' :: '{' :: '1' :: '}' :: '{' :: '0' :: '}' :: post) →
      extract_indices ts = [0, 1]) := by
  constructor
  · intro ts
    exact ⟨extract_indices_sorted ts, fun n => mem_extract_indices ts n⟩
  · intro ts hbound hsub
    obtain ⟨t, ht, pre, post, heq⟩ := hsub
    have h0 : (0 : Nat) ∈ scanIndices t.data := by
      rw [heq]
      have := scanIndices_finds_digit pre '0'
        ('{' :: '1' :: '}' :: '{' :: '0' :: '}' :: post) (by decide)
      simpa [natOfDigits] using this
    have h1 : (1 : Nat) ∈ scanIndices t.data := by
      have heq2 : t.data = (pre ++ ['{', '0', '}']) ++
          '{' :: '1' :: '}' :: ('{' :: '0' :: '}' :: post) := by
        rw [heq]
        simp [List.append_assoc]
      rw [heq2]
      have := scanIndices_finds_digit (pre ++ ['{', '0', '}']) '1'
        ('{' :: '0' :: '}' :: post) (by decide)
      simpa [natOfDigits] using this
    refine sorted_le_one_eq (extract_indices_sorted ts) ?_ ?_ ?_
    · intro n hn
      obtain ⟨u, hu, hnu⟩ := (mem_extract_indices ts n).mp hn
      exact hbound u hu n hnu
    · exact (mem_extract_indices ts 0).mpr ⟨t, ht, h0⟩
    · exact (mem_extract_indices ts 1).mpr ⟨t, ht, h1⟩

/-- Witness for the amended claim C6 at concrete input: two templates with
repeated placeholders 0 and 1 in scrambled order, one containing the
0, 1, 0 sequence. -/
theorem c6_extract_indices_spec_witness :
    extract_indices ["{1}{0}{1}", "a{0}{1}{0}b"] = [0, 1] := by
  refine c6_extract_indices_spec.2 ["{1}{0}{1}", "a{0}{1}{0}b"] (by decide) ?_
  refine ⟨"a{0}{1}{0}b", by decide, ['a'], ['b'], by decide⟩

/-! ## Argument resolver (run_macro, src/main.py lines 402 to 410)

The source loops while len(args) < len(arg_indices), reads the required
index at position len(args), prompts for one value and appends it. The
embedding passes the prompt as a function from the index to the entered
value, and additionally returns the list of indices that were prompted
for, in order. The fuel argument is the initial deficit
len(arg_indices) - len(args), which is exactly the number of loop
iterations, since every iteration appends one element. -/

/-- Loop body of the argument-collection loop. Returns the final argument
list and the prompted indices in prompt order. -/
def resolveAux : Nat → List String → List Nat → (Nat → String) → List String × List Nat
  | 0, args, _, _ => (args, [])
  | fuel + 1, args, required, promptFn =>
    if h : args.length < required.length then
      let idx := required.get ⟨args.length, h⟩
      let r := resolveAux fuel (args ++ [promptFn idx]) required promptFn
      (r.1, idx :: r.2)
    else (args, [])

/-- Embedding of the argument-collection loop of run_macro. -/
def resolve (args : List String) (required : List Nat) (promptFn : Nat → String) :
    List String × List Nat :=
  resolveAux (required.length - args.length) args required promptFn

theorem resolveAux_eq (required : List Nat) (promptFn : Nat → String) :
    ∀ (fuel : Nat) (args : List String),
      resolveAux fuel args required promptFn =
        (args ++ (((required.drop args.length).take fuel).map promptFn),
         (required.drop args.length).take fuel) := by
  intro fuel
  induction fuel with
  | zero => intro args; simp [resolveAux]
  | succ f ih =>
    intro args
    unfold resolveAux
    by_cases h : args.length < required.length
    · rw [dif_pos h]
      simp only [ih]
      have hdrop : required.drop args.length =
          required.get ⟨args.length, h⟩ :: required.drop (args.length + 1) := by
        rw [List.drop_eq_getElem_cons h]
        rfl
      have hlen : (args ++ [promptFn (required.get ⟨args.length, h⟩)]).length =
          args.length + 1 := by simp
      rw [hlen, hdrop]
      simp only [List.take_succ_cons, List.map_cons, Prod.mk.injEq]
      constructor
      · rw [List.append_assoc]
        rfl
      · trivial
    · rw [dif_neg h]
      have hdrop : required.drop args.length = [] :=
        List.drop_eq_nil_of_le (by omega)
      rw [hdrop]
      simp

/-- Closed form of the resolver: the prompted indices are the required
list from position len(supplied) on, and the final argument list is the
supplied one extended by one prompted value per remaining index. -/
theorem resolve_eq (args : List String) (required : List Nat) (promptFn : Nat → String) :
    resolve args required promptFn =
      (args ++ ((required.drop args.length).map promptFn), required.drop args.length) := by
  unfold resolve
  rw [resolveAux_eq]
  have : (required.drop args.length).take (required.length - args.length) =
      required.drop args.length := by
    apply List.take_of_length_le
    simp
  rw [this]

/-- Claim C5: with fewer supplied arguments than required indices, the
resolver prompts exactly (required minus supplied) times, appends one
value per prompt, labels each prompt with the literal required index at
position len(args) of the ascending required list, and ends with as many
arguments as there are required indices. -/
theorem c5_resolver_prompts (supplied : List String) (required : List Nat)
    (promptFn : Nat → String) (h : supplied.length < required.length) :
    (resolve supplied required promptFn).2 = required.drop supplied.length ∧
    (resolve supplied required promptFn).2.length = required.length - supplied.length ∧
    (resolve supplied required promptFn).1 =
      supplied ++ ((required.drop supplied.length).map promptFn) ∧
    (resolve supplied required promptFn).1.length = required.length := by
  rw [resolve_eq]
  refine ⟨rfl, ?_, rfl, ?_⟩
  · simp
  · simp
    omega

/-- Witness for claim C5 at the documented example: templates
["echo {0}", "touch {1}.txt"] with supplied ["foo"] prompt exactly once,
for index 1, and end with two arguments. -/
theorem c5_resolver_prompts_witness :
    ["foo"].length < (extract_indices ["echo {0}", "touch {1}.txt"]).length ∧
    (resolve ["foo"] (extract_indices ["echo {0}", "touch {1}.txt"]) (fun _ => "bar")).2 =
      [1] ∧
    (resolve ["foo"] (extract_indices ["echo {0}", "touch {1}.txt"]) (fun _ => "bar")).1.length =
      2 := by
  have hind : extract_indices ["echo {0}", "touch {1}.txt"] = [0, 1] := by decide
  have h : ["foo"].length < (extract_indices ["echo {0}", "touch {1}.txt"]).length := by
    rw [hind]; decide
  obtain ⟨h2, _, _, h1⟩ := c5_resolver_prompts ["foo"]
    (extract_indices ["echo {0}", "touch {1}.txt"]) (fun _ => "bar") h
  refine ⟨h, ?_, ?_⟩
  · rw [h2, hind]
    decide
  · rw [h1, hind]
    decide

/-! ## Template rendering (run_macro, src/main.py lines 422 to 429)

The source renders each template with the Python format call on the
collected arguments, catching IndexError (a referenced position beyond
the argument list) and aborting the whole run naming the literal
template. The embedding models the positional fragment of the format
grammar that the macro templates use: literal text, brace escapes written
as two braces, and fields of the form of an opening brace, one or more
digits, and a closing brace. Any other field syntax is treated as a
format error, which run_macro does not catch (the process would fail with
an uncaught exception rather than the missing-argument abort). -/

/-- One parsed element of a template: a literal character or a positional
field. -/
inductive TItem where
  | lit (c : Char) : TItem
  | field (n : Nat) : TItem
deriving DecidableEq

/-- Parse of the positional format fragment. The fuel starts at the
length of the list and strictly dominates it throughout, so it never runs
out; it only makes the recursion structural. -/
def parseAux : Nat → List Char → Option (List TItem)
  | _, [] => some []
  | 0, _ :: _ => none
  | fuel + 1, c :: rest =>
    if c = '{' then
      if rest.head? = some '{' then
        (parseAux fuel (rest.drop 1)).map (fun is => TItem.lit '{' :: is)
      else if rest.takeWhile Char.isDigit ≠ [] ∧
          (rest.dropWhile Char.isDigit).head? = some '}' then
        (parseAux fuel ((rest.dropWhile Char.isDigit).drop 1)).map
          (fun is => TItem.field (natOfDigits (rest.takeWhile Char.isDigit)) :: is)
      else none
    else if c = '}' then
      if rest.head? = some '}' then
        (parseAux fuel (rest.drop 1)).map (fun is => TItem.lit '}' :: is)
      else none
    else (parseAux fuel rest).map (fun is => TItem.lit c :: is)

/-- Parsed shape of a template string. -/
def parseTemplate (t : String) : Option (List TItem) := parseAux t.data.length t.data

/-- A template is well formed when it lies in the modelled positional
format fragment. -/
def wellFormed (t : String) : Bool := (parseTemplate t).isSome

/-- Positional indices referenced by the parsed items. -/
def itemFields (items : List TItem) : List Nat :=
  items.filterMap (fun i => match i with | TItem.field n => some n | TItem.lit _ => none)

/-- Indices a template references during rendering (empty for a template
outside the modelled fragment). -/
def templateRefs (t : String) : List Nat :=
  match parseTemplate t with
  | some items => itemFields items
  | none => []

/-- Substitution of the argument values into the parsed items; none
models the IndexError raised when a field position is out of range. -/
def renderItems : List TItem → List String → Option (List Char)
  | [], _ => some []
  | TItem.lit c :: rest, args => (renderItems rest args).map (fun cs => c :: cs)
  | TItem.field n :: rest, args =>
    match args[n]? with
    | some v => (renderItems rest args).map (fun cs => v.data ++ cs)
    | none => none

/-- Result of rendering one template. -/
inductive ROut where
  | ok (s : String) : ROut
  | idxErr : ROut
  | fmtErr : ROut
deriving DecidableEq

/-- Embedding of raw_cmd.format(args) for one template. -/
def renderTemplate (t : String) (args : List String) : ROut :=
  match parseTemplate t with
  | none => ROut.fmtErr
  | some items =>
    match renderItems items args with
    | none => ROut.idxErr
    | some cs => ROut.ok (String.mk cs)

/-- Result of rendering the whole command list, in order, stopping at the
first failing template and remembering which literal template failed. -/
inductive RAll where
  | ok (cmds : List String) : RAll
  | missing (t : String) : RAll
  | malformed (t : String) : RAll
deriving DecidableEq

/-- Embedding of the rendering loop of run_macro (lines 422 to 429): each
template is rendered in order; the first IndexError aborts the run naming
the template, and any other format failure is an uncaught exception. -/
def renderAll : List String → List String → RAll
  | [], _ => RAll.ok []
  | t :: ts, args =>
    match renderTemplate t args with
    | ROut.idxErr => RAll.missing t
    | ROut.fmtErr => RAll.malformed t
    | ROut.ok c =>
      match renderAll ts args with
      | RAll.ok cs => RAll.ok (c :: cs)
      | r => r

theorem renderItems_none_iff (items : List TItem) (args : List String) :
    renderItems items args = none ↔ ∃ n ∈ itemFields items, args.length ≤ n := by
  induction items with
  | nil => simp [renderItems, itemFields]
  | cons i rest ih =>
    cases i with
    | lit c =>
      have hf : itemFields (TItem.lit c :: rest) = itemFields rest := by
        simp [itemFields]
      rw [hf]
      show (renderItems rest args).map (fun cs => c :: cs) = none ↔ _
      rw [Option.map_eq_none']
      exact ih
    | field n =>
      have hf : itemFields (TItem.field n :: rest) = n :: itemFields rest := by
        simp [itemFields]
      rw [hf]
      show (match args[n]? with
        | some v => (renderItems rest args).map (fun cs => v.data ++ cs)
        | none => none) = none ↔ _
      cases hn : args[n]? with
      | none =>
        have hlen : args.length ≤ n := List.getElem?_eq_none_iff.mp hn
        simp only []
        constructor
        · intro _
          exact ⟨n, List.mem_cons_self _ _, hlen⟩
        · intro _
          trivial
      | some v =>
        have hlt : n < args.length := by
          by_contra hge
          rw [List.getElem?_eq_none_iff.mpr (by omega)] at hn
          exact Option.noConfusion hn
        simp only []
        rw [Option.map_eq_none']
        constructor
        · intro h
          obtain ⟨m, hm, hml⟩ := ih.mp h
          exact ⟨m, List.mem_cons_of_mem _ hm, hml⟩
        · rintro ⟨m, hm, hml⟩
          rcases List.mem_cons.mp hm with rfl | hm2
          · omega
          · exact ih.mpr ⟨m, hm2, hml⟩


theorem dropWhile_length_le (p : Char → Bool) (l : List Char) :
    (l.dropWhile p).length ≤ l.length := by
  induction l with
  | nil => simp
  | cons c cs ih =>
    rw [List.dropWhile_cons]
    split
    · simp only [List.length_cons]
      omega
    · simp

theorem itemFields_cons_lit (c : Char) (is : List TItem) :
    itemFields (TItem.lit c :: is) = itemFields is := by
  simp [itemFields]

theorem itemFields_cons_field (n : Nat) (is : List TItem) :
    itemFields (TItem.field n :: is) = n :: itemFields is := by
  simp [itemFields]

/-- Every positional index referenced by a well-formed template is found
by the placeholder scan: the rendering fields are a subset of the
extracted indices. -/
theorem parse_fields_subset_scan :
    ∀ (fuel : Nat) (l : List Char) (items : List TItem),
      l.length ≤ fuel → parseAux fuel l = some items →
      ∀ n ∈ itemFields items, n ∈ scanIndices l := by
  intro fuel
  induction fuel with
  | zero =>
    intro l items hlen hp n hn
    cases l with
    | nil =>
      unfold parseAux at hp
      rw [Option.some.injEq] at hp
      subst hp
      simp [itemFields] at hn
    | cons c cs => simp at hlen
  | succ f ih =>
    intro l items hlen hp n hn
    cases l with
    | nil =>
      unfold parseAux at hp
      rw [Option.some.injEq] at hp
      subst hp
      simp [itemFields] at hn
    | cons c rest =>
      simp only [List.length_cons] at hlen
      unfold parseAux at hp
      by_cases hc : c = '{'
      · subst hc
        rw [if_pos rfl] at hp
        by_cases hh : rest.head? = some '{'
        · rw [if_pos hh] at hp
          rcases rest with _ | ⟨r0, rest2⟩
          · simp at hh
          · simp only [List.head?_cons, Option.some.injEq] at hh
            subst hh
            simp only [List.drop_succ_cons, List.drop_zero] at hp
            obtain ⟨is, his, rfl⟩ := Option.map_eq_some'.mp hp
            rw [itemFields_cons_lit] at hn
            simp only [List.length_cons] at hlen
            have hrec := ih rest2 is (by omega) his n hn
            exact mem_scanIndices_cons '{' (mem_scanIndices_cons '{' hrec)
        · rw [if_neg hh] at hp
          by_cases hfield : rest.takeWhile Char.isDigit ≠ [] ∧
              (rest.dropWhile Char.isDigit).head? = some '}'
          · rw [if_pos hfield] at hp
            obtain ⟨hds, hdw⟩ := hfield
            rcases hdwe : rest.dropWhile Char.isDigit with _ | ⟨d0, tail⟩
            · rw [hdwe] at hdw
              simp at hdw
            · rw [hdwe] at hdw hp
              simp only [List.head?_cons, Option.some.injEq] at hdw
              subst hdw
              simp only [List.drop_succ_cons, List.drop_zero] at hp
              obtain ⟨is, his, rfl⟩ := Option.map_eq_some'.mp hp
              rw [itemFields_cons_field] at hn
              have htail : tail.length ≤ f := by
                have h1 := dropWhile_length_le Char.isDigit rest
                rw [hdwe] at h1
                simp only [List.length_cons] at h1
                omega
              have hscan : scanIndices ('{' :: rest) =
                  natOfDigits (rest.takeWhile Char.isDigit) :: scanIndices rest := by
                conv_lhs => unfold scanIndices
                rw [if_pos rfl, hdwe]
                simp only []
                rw [if_neg hds]
              rcases List.mem_cons.mp hn with rfl | hn2
              · rw [hscan]
                exact List.mem_cons_self _ _
              · have hrec := ih tail is htail his n hn2
                have hmem : n ∈ scanIndices rest := by
                  have h2 : n ∈ scanIndices (rest.takeWhile Char.isDigit ++
                      ('}' :: tail)) :=
                    mem_scanIndices_append _ (mem_scanIndices_cons '}' hrec)
                  rw [← hdwe, List.takeWhile_append_dropWhile] at h2
                  exact h2
                rw [hscan]
                exact List.mem_cons_of_mem _ hmem
          · rw [if_neg hfield] at hp
            exact absurd hp (by simp)
      · rw [if_neg hc] at hp
        by_cases hc2 : c = '}'
        · subst hc2
          rw [if_pos rfl] at hp
          by_cases hh : rest.head? = some '}'
          · rw [if_pos hh] at hp
            rcases rest with _ | ⟨r0, rest2⟩
            · simp at hh
            · simp only [List.head?_cons, Option.some.injEq] at hh
              subst hh
              simp only [List.drop_succ_cons, List.drop_zero] at hp
              obtain ⟨is, his, rfl⟩ := Option.map_eq_some'.mp hp
              rw [itemFields_cons_lit] at hn
              simp only [List.length_cons] at hlen
              have hrec := ih rest2 is (by omega) his n hn
              exact mem_scanIndices_cons '}' (mem_scanIndices_cons '}' hrec)
          · rw [if_neg hh] at hp
            exact absurd hp (by simp)
        · rw [if_neg hc2] at hp
          obtain ⟨is, his, rfl⟩ := Option.map_eq_some'.mp hp
          rw [itemFields_cons_lit] at hn
          have hrec := ih rest is (by omega) his n hn
          exact mem_scanIndices_cons c hrec

/-- Success criterion for one template: a well-formed template whose
fields all lie below the argument count renders successfully. -/
theorem renderTemplate_ok_of_lt (t : String) (args : List String)
    (hwf : wellFormed t = true)
    (hlt : ∀ n ∈ templateRefs t, n < args.length) :
    ∃ s, renderTemplate t args = ROut.ok s := by
  unfold wellFormed at hwf
  unfold renderTemplate
  rcases hpt : parseTemplate t with _ | items
  · rw [hpt] at hwf
    simp at hwf
  · simp only []
    rcases hri : renderItems items args with _ | cs
    · obtain ⟨n, hn, hle⟩ := (renderItems_none_iff items args).mp hri
      have hlt2 : n < args.length := by
        apply hlt
        unfold templateRefs
        rw [hpt]
        exact hn
      omega
    · exact ⟨String.mk cs, rfl⟩

/-- Failure criterion for one template: a well-formed template raises the
index error exactly when it references a position at or beyond the
argument count. -/
theorem renderTemplate_idxErr_iff (t : String) (args : List String)
    (hwf : wellFormed t = true) :
    renderTemplate t args = ROut.idxErr ↔ ∃ n ∈ templateRefs t, args.length ≤ n := by
  unfold wellFormed at hwf
  unfold renderTemplate
  rcases hpt : parseTemplate t with _ | items
  · rw [hpt] at hwf
    simp at hwf
  · simp only []
    have hrefs : templateRefs t = itemFields items := by
      simp [templateRefs, hpt]
    rw [hrefs]
    rcases hri : renderItems items args with _ | cs
    · simp only []
      constructor
      · intro _
        exact (renderItems_none_iff items args).mp hri
      · intro _
        trivial
    · simp only []
      constructor
      · intro hfalse
        exact absurd hfalse (by simp)
      · intro hex
        have h2 := (renderItems_none_iff items args).mpr hex
        rw [hri] at h2
        exact absurd h2 (by simp)

/-- A well-formed template never yields the uncaught format error. -/
theorem renderTemplate_not_fmtErr (t : String) (args : List String)
    (hwf : wellFormed t = true) : renderTemplate t args ≠ ROut.fmtErr := by
  unfold wellFormed at hwf
  unfold renderTemplate
  rcases hpt : parseTemplate t with _ | items
  · rw [hpt] at hwf
    simp at hwf
  · simp only []
    rcases hri : renderItems items args with _ | cs
    · simp
    · simp

/-- If every template of the list is well formed and renders below the
argument count, the whole rendering loop succeeds. -/
theorem renderAll_ok (ts : List String) (args : List String)
    (hwf : ∀ t ∈ ts, wellFormed t = true)
    (hlt : ∀ t ∈ ts, ∀ n ∈ templateRefs t, n < args.length) :
    ∃ cs, renderAll ts args = RAll.ok cs := by
  induction ts with
  | nil => exact ⟨[], rfl⟩
  | cons t ts ih =>
    obtain ⟨s, hs⟩ := renderTemplate_ok_of_lt t args (hwf t (by simp))
      (hlt t (by simp))
    obtain ⟨cs, hcs⟩ := ih (fun u hu => hwf u (List.mem_cons_of_mem _ hu))
      (fun u hu => hlt u (List.mem_cons_of_mem _ hu))
    refine ⟨s :: cs, ?_⟩
    unfold renderAll
    rw [hs, hcs]

/-- If every template is well formed and some template references a
position at or beyond the argument count, the rendering loop stops at the
first such template with the missing-argument outcome. -/
theorem renderAll_missing (ts : List String) (args : List String)
    (hwf : ∀ t ∈ ts, wellFormed t = true)
    (hfail : ∃ t ∈ ts, ∃ n ∈ templateRefs t, args.length ≤ n) :
    ∃ t ∈ ts, renderAll ts args = RAll.missing t ∧
      ∃ n ∈ templateRefs t, args.length ≤ n := by
  induction ts with
  | nil =>
    obtain ⟨t, ht, _⟩ := hfail
    simp at ht
  | cons t ts ih =>
    rcases hr : renderTemplate t args with s | _ | _
    · have hok : ¬ ∃ n ∈ templateRefs t, args.length ≤ n := by
        intro hex
        have := (renderTemplate_idxErr_iff t args (hwf t (by simp))).mpr hex
        rw [hr] at this
        exact absurd this (by simp)
      have hfail2 : ∃ u ∈ ts, ∃ n ∈ templateRefs u, args.length ≤ n := by
        obtain ⟨u, hu, hex⟩ := hfail
        rcases List.mem_cons.mp hu with rfl | hu2
        · exact absurd hex hok
        · exact ⟨u, hu2, hex⟩
      obtain ⟨u, hu, hmiss, hex⟩ := ih
        (fun v hv => hwf v (List.mem_cons_of_mem _ hv)) hfail2
      refine ⟨u, List.mem_cons_of_mem _ hu, ?_, hex⟩
      unfold renderAll
      rw [hr, hmiss]
    · refine ⟨t, List.mem_cons_self _ _, ?_, ?_⟩
      · unfold renderAll
        rw [hr]
      · exact (renderTemplate_idxErr_iff t args (hwf t (by simp))).mp hr
    · exact absurd hr (renderTemplate_not_fmtErr t args (hwf t (by simp)))

theorem templateRefs_subset_scan (t : String) (hwf : wellFormed t = true) :
    ∀ n ∈ templateRefs t, n ∈ scanIndices t.data := by
  intro n hn
  unfold wellFormed at hwf
  rcases hpt : parseTemplate t with _ | items
  · rw [hpt] at hwf
    simp at hwf
  · unfold templateRefs at hn
    rw [hpt] at hn
    unfold parseTemplate at hpt
    exact parse_fields_subset_scan t.data.length t.data items (le_refl _) hpt n hn

/-- Claim C2 (counterexample to the literal statement): for the macro
["echo {2}"] the extracted indices are [2], so max(N)+1 is 3; the
resolver prompts once and finishes with a single argument, and rendering
then does reach the missing-argument branch even though the argument was
collected by the resolver itself. -/
theorem c2_counterexample :
    extract_indices ["echo {2}"] = [2] ∧
    ((resolve [] (extract_indices ["echo {2}"]) (fun _ => "v")).1).length = 1 ∧
    renderAll ["echo {2}"]
      ((resolve [] (extract_indices ["echo {2}"]) (fun _ => "v")).1) =
      RAll.missing "echo {2}" := by
  refine ⟨by decide, by decide, by decide⟩

/-- Claim C2 (amended): after the resolver finishes, the argument list has
at least as many entries as there are distinct placeholder indices. When
the distinct indices are exactly 0 to k-1 (contiguous from zero), this
count equals max(N)+1 and the missing-argument branch of rendering is
unreachable for arguments collected by the resolver; for non-contiguous
index sets the max(N)+1 bound and the unreachability both fail. -/
theorem c2_resolver_bound (ts : List String) (args0 : List String)
    (promptFn : Nat → String) :
    (extract_indices ts).length ≤
      ((resolve args0 (extract_indices ts) promptFn).1).length ∧
    (∀ k, extract_indices ts = List.range k →
      (∀ t ∈ ts, wellFormed t = true) →
      ∃ cs, renderAll ts ((resolve args0 (extract_indices ts) promptFn).1) =
        RAll.ok cs) := by
  have hre := resolve_eq args0 (extract_indices ts) promptFn
  have hlen : ((resolve args0 (extract_indices ts) promptFn).1).length =
      args0.length + ((extract_indices ts).length - args0.length) := by
    rw [hre]
    simp
  constructor
  · omega
  · intro k hk hwf
    apply renderAll_ok ts _ hwf
    intro t ht n hn
    have hscan : n ∈ scanIndices t.data :=
      templateRefs_subset_scan t (hwf t ht) n hn
    have hmem : n ∈ extract_indices ts :=
      (mem_extract_indices ts n).mpr ⟨t, ht, hscan⟩
    rw [hk] at hmem
    have hnk : n < k := List.mem_range.mp hmem
    have hkl : (extract_indices ts).length = k := by
      rw [hk]
      simp
    omega

/-- Witness for the amended claim C2 at the documented contiguous example:
both templates of ["echo {0}", "touch {1}.txt"] render after resolution
from an empty supplied list. -/
theorem c2_resolver_bound_witness :
    extract_indices ["echo {0}", "touch {1}.txt"] = List.range 2 ∧
    ∃ cs, renderAll ["echo {0}", "touch {1}.txt"]
      ((resolve [] (extract_indices ["echo {0}", "touch {1}.txt"])
        (fun _ => "x")).1) = RAll.ok cs :=
  ⟨by decide,
   (c2_resolver_bound ["echo {0}", "touch {1}.txt"] [] (fun _ => "x")).2 2
     (by decide) (by decide)⟩

/-! ## Shell-emission mode (run_macro, src/main.py lines 432 to 444)

For each resolved command the source prints one line; a command matching
the regex of optional whitespace, the word cd, whitespace, then either a
double-quoted body or one whitespace-free token, followed by optional
whitespace, is re-emitted as the word cd followed by the double-quoted
path. The embedding mirrors the regex alternation: the quoted branch is
tried first and, where it cannot match, the single-token branch; the
greedy character classes leave the regex no other backtracking. -/

/-- Whitespace class of the regex (space, tab, newline, return, vertical
tab, form feed). -/
def isPySpace (c : Char) : Bool :=
  decide (c.toNat = 32 ∨ c.toNat = 9 ∨ c.toNat = 10 ∨ c.toNat = 13 ∨
    c.toNat = 11 ∨ c.toNat = 12)

/-- Single-token branch of the cd regex: one nonempty whitespace-free
token followed by optional whitespace. -/
def unquotedCd (r2 : List Char) : Option (List Char) :=
  if r2.takeWhile (fun c => !(isPySpace c)) ≠ [] ∧
      (r2.dropWhile (fun c => !(isPySpace c))).all isPySpace then
    some (r2.takeWhile (fun c => !(isPySpace c)))
  else none

/-- Recognition of a change-directory command: returns the path when the
cd regex matches, in which case the emitted line is the canonical quoted
form. -/
def cdMatch (cmd : List Char) : Option (List Char) :=
  if (cmd.dropWhile isPySpace).take 2 = ['c', 'd'] then
    match ((cmd.dropWhile isPySpace).drop 2).head? with
    | none => none
    | some c0 =>
      if isPySpace c0 then
        cdBody (((cmd.dropWhile isPySpace).drop 2).dropWhile isPySpace)
      else none
  else none
where
  /-- Path part after the whitespace following cd: quoted branch first,
  then the single-token branch. -/
  cdBody (r2 : List Char) : Option (List Char) :=
    if r2.head? = some '"' then
      if (r2.drop 1).takeWhile (fun c => !(decide (c = '"'))) ≠ [] ∧
          ((r2.drop 1).dropWhile (fun c => !(decide (c = '"')))).head? = some '"' ∧
          (((r2.drop 1).dropWhile (fun c => !(decide (c = '"')))).drop 1).all isPySpace then
        some ((r2.drop 1).takeWhile (fun c => !(decide (c = '"'))))
      else unquotedCd r2
    else unquotedCd r2

/-- One emitted line of shell-emission mode (with its newline), for one
resolved command. -/
def emitLine (cmd : String) : String :=
  match cdMatch cmd.data with
  | some p => "cd \"" ++ String.mk p ++ "\"" ++ "\n"
  | none => cmd ++ "\n"

/-! ## Execution strategies and the run orchestrator
(run_macro, src/main.py lines 328 to 470) -/

/-- A stored macro: its canonical name and its command templates. -/
structure MacroEntry where
  name : String
  commands : List String
deriving DecidableEq

/-- External capabilities of one run: the interactive selector (returning
none on cancellation), the interactive value prompt, and the sub-process
runner returning the exit code of the compound command. -/
structure RunEnv where
  select : String → List String → Option String
  promptFn : Nat → String
  runShell : String → Nat

/-- Outcome of select_from_list (src/main.py lines 296 to 325): the chosen
option, or the message of the ValueError it raises. -/
inductive Picked where
  | ok (s : String) : Picked
  | err (msg : String) : Picked
deriving DecidableEq

/-- Embedding of select_from_list: an empty option list or a cancelled
selection raises; otherwise the chosen string is returned. -/
def select_from_list (sel : String → List String → Option String)
    (title : String) (options : List String) : Picked :=
  if options = [] then Picked.err "No options"
  else
    match sel title options with
    | none => Picked.err "No selection made"
    | some a => Picked.ok a

/-- Observable outcome of one run of run_macro. A fail outcome prints the
single diagnostic line it carries and exits with status 1 (typer.Exit(1)
and typer.Abort both yield exit status 1); crash models an uncaught
exception escaping the format call; shellOk carries the emitted lines of
shell-emission mode; the direct outcomes carry the compound command
handed to the sub-process and, on failure, its exit code and diagnostic. -/
inductive RunOutcome where
  | fail (diag : String) : RunOutcome
  | crash (t : String) : RunOutcome
  | shellOk (lines : List String) : RunOutcome
  | directOk (ran : String) : RunOutcome
  | directNoCommands (notice : String) : RunOutcome
  | directFail (ran : String) (code : Nat) (diag : String) : RunOutcome
deriving DecidableEq

/-- Process exit status of an outcome. -/
def exitStatus : RunOutcome → Nat
  | RunOutcome.fail _ => 1
  | RunOutcome.crash _ => 1
  | RunOutcome.shellOk _ => 0
  | RunOutcome.directOk _ => 0
  | RunOutcome.directNoCommands _ => 0
  | RunOutcome.directFail _ code _ => code

/-- The compound command handed to a sub-process, when one was spawned. -/
def ranProcess : RunOutcome → Option String
  | RunOutcome.directOk ran => some ran
  | RunOutcome.directFail ran _ _ => some ran
  | _ => none

/-- The command lines emitted on standard output in shell-emission mode. -/
def emittedLines : RunOutcome → List String
  | RunOutcome.shellOk lines => lines
  | _ => []

/-- Embedding of the execution tail of run_macro (lines 432 to 459): in
shell mode each resolved command is emitted as one line; otherwise a
nonempty command list is joined with the and-chaining separator and run
as one sub-process whose nonzero exit code becomes the exit status, and
an empty command list prints the no-commands notice. -/
def execute (shell : Bool) (runShell : String → Nat) (cmds : List String) : RunOutcome :=
  if shell then RunOutcome.shellOk (cmds.map emitLine)
  else if cmds = [] then
    RunOutcome.directNoCommands "[dim]No commands to execute.[/dim]\n"
  else if runShell (String.intercalate " && " cmds) = 0 then
    RunOutcome.directOk (String.intercalate " && " cmds)
  else
    RunOutcome.directFail (String.intercalate " && " cmds)
      (runShell (String.intercalate " && " cmds))
      ("[red]Sub-shell command failed with code " ++
        toString (runShell (String.intercalate " && " cmds)) ++ "[/red]\n")

/-- Diagnostic of the empty-datastore failure (line 353). -/
def noDataDiag (shell : Bool) : String :=
  if shell then "echo \"No macros found.\"\n"
  else "[bold red]No macros found.[/bold red]\n"

/-- Diagnostic of a selector failure (lines 366 and 387). The source
chooses the echo form under the condition not shell-mode, so the two
output registers are exchanged relative to every other diagnostic site;
the embedding reproduces that branch as written. -/
def selectionDiag (shell : Bool) (e : String) : String :=
  if !shell then "echo \"Error: " ++ e ++ "\"\n"
  else "[red]" ++ e ++ "[/red]\n"

/-- Diagnostic of an unknown keybind (line 372). -/
def kbNotFoundDiag (shell : Bool) (kb : String) : String :=
  if shell then "echo \"Keybind \x27" ++ kb ++ "\x27 not found.\"\n"
  else "[red]Keybind \x27" ++ kb ++ "\x27 not found.[/red]\n"

/-- Diagnostic of a keybind without macros (line 377). -/
def noMacrosDiag (shell : Bool) (kb : String) : String :=
  if shell then "echo \"No macros available under keybind \x27" ++ kb ++ "\x27.\"\n"
  else "[red]No macros available under keybind \x27" ++ kb ++ "\x27.[/red]\n"

/-- Diagnostic of an unknown macro name (line 395). -/
def macroNotFoundDiag (shell : Bool) (nm kb : String) : String :=
  if shell then
    "echo \"Macro \x27" ++ nm ++ "\x27 not found under keybind \x27" ++ kb ++ "\x27.\"\n"
  else "[red]Macro \x27" ++ nm ++ "\x27 not found under keybind \x27" ++ kb ++ "\x27.[/red]\n"

/-- Diagnostic of the caught IndexError of rendering (lines 426 to 427). -/
def missingArgDiag (shell : Bool) (t : String) : String :=
  if shell then "echo \"Missing arguments for command: \x27" ++ t ++ "\x27\"\n"
  else "[red]Missing arguments for command: \x27" ++ t ++ "\x27[/red]\n"

/-- Lookup of the keybind entry in the data document, by exact key match
as the dict membership test performs it. -/
def lookupKeys (data : List (String × List MacroEntry)) (kb : String) :
    Option (List MacroEntry) :=
  (data.find? (fun p => decide (p.1 = kb))).map Prod.snd

/-- Embedding of run_macro (src/main.py lines 328 to 470). The keybind and
macro name arguments are optional; an absent or empty one is collected
through the external selector. The keybind is used for lookup exactly as
supplied, while the macro name is sanitized before lookup. Placeholder
extraction, argument resolution, rendering and the selected execution
strategy then run in order, each failure aborting the rest. -/
def runMak (env : RunEnv) (data : List (String × List MacroEntry))
    (keybindArg : Option String) (nameArg : Option String)
    (args0 : List String) (shell : Bool) : RunOutcome :=
  if data = [] then RunOutcome.fail (noDataDiag shell)
  else
    match (if keybindArg.getD "" = "" then
        select_from_list env.select "Available Keybinds" (data.map Prod.fst)
      else Picked.ok (keybindArg.getD "")) with
    | Picked.err e => RunOutcome.fail (selectionDiag shell e)
    | Picked.ok kb =>
      match lookupKeys data kb with
      | none => RunOutcome.fail (kbNotFoundDiag shell kb)
      | some macs =>
        if macs = [] then RunOutcome.fail (noMacrosDiag shell kb)
        else
          match (if nameArg.getD "" = "" then
              select_from_list env.select
                ("Available Macros for \x27" ++ kb ++ "\x27") (macs.map MacroEntry.name)
            else Picked.ok (nameArg.getD "")) with
          | Picked.err e => RunOutcome.fail (selectionDiag shell e)
          | Picked.ok rawName =>
            match macs.find? (fun m => decide (m.name = sanitize_name rawName)) with
            | none =>
              RunOutcome.fail (macroNotFoundDiag shell (sanitize_name rawName) kb)
            | some mac =>
              match renderAll mac.commands
                  ((resolve args0 (extract_indices mac.commands) env.promptFn).1) with
              | RAll.missing t => RunOutcome.fail (missingArgDiag shell t)
              | RAll.malformed t => RunOutcome.crash t
              | RAll.ok cmds => execute shell env.runShell cmds

/-- Claim C1 (evaluation at the failing input): in shell-emission mode the
resolved command cd my folder with an unquoted, space-containing path is
emitted verbatim, not in the canonical quoted form the specification
states, because the single-token branch of the cd regex cannot span
whitespace; the quoted and single-token cd forms are canonicalised and a
non-cd command is emitted verbatim. -/
theorem c1_cd_emission_eval :
    emitLine "cd my folder" = "cd my folder\n" ∧
    emitLine "cd my folder" ≠ "cd \"my folder\"\n" ∧
    emitLine "echo hi" = "echo hi\n" ∧
    emitLine "cd foo" = "cd \"foo\"\n" ∧
    emitLine "cd \"my folder\"" = "cd \"my folder\"\n" := by
  refine ⟨by decide, by decide, by decide, by decide, by decide⟩

/-- Claim C3: in direct mode the resolved commands are joined with the
and-chaining separator into one string handed to a single sub-process,
and a nonzero exit code of that sub-process becomes the exit status of
the run. -/
theorem c3_direct_mode (runShell : String → Nat) (cmds : List String)
    (hne : cmds ≠ []) :
    ranProcess (execute false runShell cmds) =
      some (String.intercalate " && " cmds) ∧
    (runShell (String.intercalate " && " cmds) ≠ 0 →
      execute false runShell cmds =
        RunOutcome.directFail (String.intercalate " && " cmds)
          (runShell (String.intercalate " && " cmds))
          ("[red]Sub-shell command failed with code " ++
            toString (runShell (String.intercalate " && " cmds)) ++ "[/red]\n") ∧
      exitStatus (execute false runShell cmds) =
        runShell (String.intercalate " && " cmds)) := by
  have hexec : execute false runShell cmds =
      (if runShell (String.intercalate " && " cmds) = 0 then
        RunOutcome.directOk (String.intercalate " && " cmds)
      else
        RunOutcome.directFail (String.intercalate " && " cmds)
          (runShell (String.intercalate " && " cmds))
          ("[red]Sub-shell command failed with code " ++
            toString (runShell (String.intercalate " && " cmds)) ++ "[/red]\n")) := by
    unfold execute
    rw [if_neg (by simp), if_neg hne]
  by_cases hc : runShell (String.intercalate " && " cmds) = 0
  · rw [hexec, if_pos hc]
    exact ⟨rfl, fun hx => absurd hc hx⟩
  · rw [hexec, if_neg hc]
    exact ⟨rfl, fun _ => ⟨rfl, rfl⟩⟩

/-- Witness for claim C3 at the documented example commands and a runner
answering 7: the compound command fails and the exit status is 7. -/
theorem c3_direct_mode_witness :
    ranProcess (execute false (fun _ => 7) ["false", "echo unreachable"]) =
      some "false && echo unreachable" ∧
    exitStatus (execute false (fun _ => 7) ["false", "echo unreachable"]) = 7 := by
  have h := c3_direct_mode (fun _ => 7) ["false", "echo unreachable"] (by decide)
  exact ⟨h.1, (h.2 (by decide)).2⟩

/-- Computation of the orchestrator up to the rendering step, for a run
with both the keybind and the macro name supplied and resolvable. -/
theorem runMak_reaches_render (env : RunEnv) (data : List (String × List MacroEntry))
    (kb n : String) (macs : List MacroEntry) (mac : MacroEntry)
    (args0 : List String) (shell : Bool)
    (h1 : kb ≠ "") (h2 : n ≠ "")
    (h3 : lookupKeys data kb = some macs) (h4 : macs ≠ [])
    (h5 : macs.find? (fun m => decide (m.name = sanitize_name n)) = some mac) :
    runMak env data (some kb) (some n) args0 shell =
      (match renderAll mac.commands
          ((resolve args0 (extract_indices mac.commands) env.promptFn).1) with
        | RAll.missing t => RunOutcome.fail (missingArgDiag shell t)
        | RAll.malformed t => RunOutcome.crash t
        | RAll.ok cmds => execute shell env.runShell cmds) := by
  have hdata : data ≠ [] := by
    intro h
    rw [h] at h3
    simp [lookupKeys] at h3
  unfold runMak
  rw [if_neg hdata]
  simp only [Option.getD_some, if_neg h1, if_neg h2, h3, if_neg h4, h5]

/-- Claim C10: a selected macro with an empty command list runs
successfully with exit status 0; direct mode spawns no sub-process and
prints the no-commands notice, and shell-emission mode emits no command
lines. -/
theorem c10_empty_macro (env : RunEnv) (data : List (String × List MacroEntry))
    (kb n : String) (macs : List MacroEntry) (mac : MacroEntry)
    (args0 : List String) (shell : Bool)
    (h1 : kb ≠ "") (h2 : n ≠ "")
    (h3 : lookupKeys data kb = some macs) (h4 : macs ≠ [])
    (h5 : macs.find? (fun m => decide (m.name = sanitize_name n)) = some mac)
    (h6 : mac.commands = []) :
    runMak env data (some kb) (some n) args0 shell =
      (if shell then RunOutcome.shellOk []
       else RunOutcome.directNoCommands "[dim]No commands to execute.[/dim]\n") ∧
    exitStatus (runMak env data (some kb) (some n) args0 shell) = 0 ∧
    ranProcess (runMak env data (some kb) (some n) args0 shell) = none := by
  have hrun := runMak_reaches_render env data kb n macs mac args0 shell h1 h2 h3 h4 h5
  rw [h6] at hrun
  have hrender : renderAll ([] : List String)
      ((resolve args0 (extract_indices []) env.promptFn).1) = RAll.ok [] := rfl
  rw [hrender] at hrun
  simp only [] at hrun
  have hexec : execute shell env.runShell [] =
      (if shell then RunOutcome.shellOk []
       else RunOutcome.directNoCommands "[dim]No commands to execute.[/dim]\n") := by
    unfold execute
    by_cases hs : shell
    · rw [if_pos hs, if_pos hs]
      rfl
    · rw [if_neg hs, if_neg hs, if_pos rfl]
  rw [hexec] at hrun
  refine ⟨hrun, ?_, ?_⟩
  · rw [hrun]
    by_cases hs : shell
    · rw [if_pos hs]
      rfl
    · rw [if_neg hs]
      rfl
  · rw [hrun]
    by_cases hs : shell
    · rw [if_pos hs]
      rfl
    · rw [if_neg hs]
      rfl

/-- Witness for claim C10 at a concrete empty macro, in both execution
modes. -/
theorem c10_empty_macro_witness :
    runMak ⟨fun _ _ => none, fun _ => "", fun _ => 9⟩
      [("k", [⟨"my-mac", []⟩])] (some "k") (some "my-mac") ["a"] true =
      RunOutcome.shellOk [] ∧
    runMak ⟨fun _ _ => none, fun _ => "", fun _ => 9⟩
      [("k", [⟨"my-mac", []⟩])] (some "k") (some "my-mac") ["a"] false =
      RunOutcome.directNoCommands "[dim]No commands to execute.[/dim]\n" := by
  constructor
  · have h := c10_empty_macro ⟨fun _ _ => none, fun _ => "", fun _ => 9⟩
      [("k", [⟨"my-mac", []⟩])] "k" "my-mac" [⟨"my-mac", []⟩] ⟨"my-mac", []⟩
      ["a"] true (by decide) (by decide) (by decide) (by decide) (by decide) rfl
    exact h.1
  · have h := c10_empty_macro ⟨fun _ _ => none, fun _ => "", fun _ => 9⟩
      [("k", [⟨"my-mac", []⟩])] "k" "my-mac" [⟨"my-mac", []⟩] ⟨"my-mac", []⟩
      ["a"] false (by decide) (by decide) (by decide) (by decide) (by decide) rfl
    exact h.1

/-- Claim C8 (evaluation at the failing input): when the interactive
selector reports no selection, the diagnostic is printed in the
decorated rich register under shell-emission mode and in the echo
register under direct mode, the opposite of the claimed rule, because the
source inverts the mode test at the two selector failure sites; the
other failure sites, the unknown-macro diagnostic evaluated here among
them, use the registers as claimed. -/
theorem c8_no_selection_register :
    runMak ⟨fun _ _ => none, fun _ => "", fun _ => 0⟩ [("k", [])] none none [] true =
      RunOutcome.fail "[red]No selection made[/red]\n" ∧
    runMak ⟨fun _ _ => none, fun _ => "", fun _ => 0⟩ [("k", [])] none none [] false =
      RunOutcome.fail "echo \"Error: No selection made\"\n" ∧
    runMak ⟨fun _ _ => none, fun _ => "", fun _ => 0⟩
      [("k", [⟨"m", ["ls"]⟩])] (some "k") (some "x") [] true =
      RunOutcome.fail "echo \"Macro \x27x\x27 not found under keybind \x27k\x27.\"\n" ∧
    runMak ⟨fun _ _ => none, fun _ => "", fun _ => 0⟩ [] none none [] true =
      RunOutcome.fail "echo \"No macros found.\"\n" := by
  refine ⟨by decide, by decide, by decide, by decide⟩

/-- Claim C9: the supplied keybind is looked up by exact string match
without sanitization, so when every stored keybind is canonical, any
unsanitized variant (containing a space, underscore or uppercase letter)
aborts with the keybind-not-found failure; the macro name, by contrast,
is sanitized before lookup, so an unsanitized macro name still finds its
canonical macro. -/
theorem c9_keybind_exact_lookup (env : RunEnv)
    (data : List (String × List MacroEntry)) (kb : String)
    (nameArg : Option String) (args0 : List String) (shell : Bool)
    (hcanon : ∀ k ∈ data.map Prod.fst, sanitize_name k = k)
    (hbad : ∃ c ∈ kb.data, isSpacerChar c = true ∨ isUpperAscii c = true)
    (hdata : data ≠ []) :
    (runMak env data (some kb) nameArg args0 shell =
      RunOutcome.fail (kbNotFoundDiag shell kb) ∧
     exitStatus (runMak env data (some kb) nameArg args0 shell) = 1) ∧
    (∀ (m : MacroEntry) (kb2 rawName : String) (args0b : List String) (shellb : Bool),
      kb2 ≠ "" → rawName ≠ "" → sanitize_name rawName = m.name → m.commands = [] →
      runMak env [(kb2, [m])] (some kb2) (some rawName) args0b shellb =
        (if shellb then RunOutcome.shellOk []
         else RunOutcome.directNoCommands "[dim]No commands to execute.[/dim]\n")) := by
  have hkbne : kb ≠ "" := by
    obtain ⟨c, hc, _⟩ := hbad
    intro h
    rw [h] at hc
    simp at hc
  have hsanne : sanitize_name kb ≠ kb := by
    obtain ⟨c, hc, hbad2⟩ := hbad
    intro heq
    have hcmem : c ∈ (sanitize_name kb).data := by
      rw [heq]
      exact hc
    have hcanonc := sanitize_name_chars kb c hcmem
    rcases hbad2 with hsp | hup
    · rw [canon_not_spacer hcanonc] at hsp
      exact Bool.noConfusion hsp
    · unfold isUpperAscii at hup
      exact canon_not_upper hcanonc (of_decide_eq_true hup)
  have hlook : lookupKeys data kb = none := by
    unfold lookupKeys
    rcases hf : data.find? (fun p => decide (p.1 = kb)) with _ | p
    · rw [hf]
      rfl
    · exfalso
      have hp := List.find?_some hf
      have hpe : p.1 = kb := of_decide_eq_true hp
      have hmem : p ∈ data := List.mem_of_find?_eq_some hf
      have hkmem : kb ∈ data.map Prod.fst := by
        rw [← hpe]
        exact List.mem_map_of_mem Prod.fst hmem
      exact hsanne (hcanon kb hkmem)
  constructor
  · have hrun : runMak env data (some kb) nameArg args0 shell =
        RunOutcome.fail (kbNotFoundDiag shell kb) := by
      unfold runMak
      rw [if_neg hdata]
      simp only [Option.getD_some, if_neg hkbne, hlook]
    exact ⟨hrun, by rw [hrun]; rfl⟩
  · intro m kb2 rawName args0b shellb hk2 hrn hsan hcmd
    have h3 : lookupKeys [(kb2, [m])] kb2 = some [m] := by
      simp [lookupKeys, List.find?]
    have h5 : ([m].find? (fun m2 => decide (m2.name = sanitize_name rawName))) =
        some m := by
      simp [List.find?, hsan]
    have hrun := runMak_reaches_render env [(kb2, [m])] kb2 rawName [m] m
      args0b shellb hk2 hrn h3 (by simp) h5
    rw [hcmd] at hrun
    have hrender : renderAll ([] : List String)
        ((resolve args0b (extract_indices []) env.promptFn).1) = RAll.ok [] := rfl
    rw [hrender] at hrun
    simp only [] at hrun
    rw [hrun]
    unfold execute
    by_cases hs : shellb
    · rw [if_pos hs, if_pos hs]
      rfl
    · rw [if_neg hs, if_neg hs, if_pos rfl]

/-- Witness for claim C9: the canonical keybind my-key is not found under
the unsanitized variant My Key, while the macro my-mac is found under the
unsanitized name My Mac. -/
theorem c9_keybind_exact_lookup_witness :
    runMak ⟨fun _ _ => none, fun _ => "", fun _ => 0⟩ [("my-key", [])]
      (some "My Key") none [] false =
      RunOutcome.fail (kbNotFoundDiag false "My Key") ∧
    runMak ⟨fun _ _ => none, fun _ => "", fun _ => 0⟩ [("k", [⟨"my-mac", []⟩])]
      (some "k") (some "My Mac") [] true = RunOutcome.shellOk [] := by
  have h := c9_keybind_exact_lookup ⟨fun _ _ => none, fun _ => "", fun _ => 0⟩
    [("my-key", [])] "My Key" none [] false (by decide)
    ⟨'M', by decide, Or.inr (by decide)⟩ (by decide)
  refine ⟨h.1.1, ?_⟩
  have h2 := h.2 ⟨"my-mac", []⟩ "k" "My Mac" [] true (by decide) (by decide)
    (by decide) rfl
  simpa using h2

/-- Claim C4: when rendering any template of the macro references an index
at or beyond the final argument list, the whole run aborts with the
missing-argument failure naming the offending literal template, with exit
status 1, before any sub-process is spawned and with no command emitted
or executed. -/
theorem c4_missing_argument_aborts (env : RunEnv)
    (data : List (String × List MacroEntry)) (kb n : String)
    (macs : List MacroEntry) (mac : MacroEntry) (args0 : List String) (shell : Bool)
    (h1 : kb ≠ "") (h2 : n ≠ "")
    (h3 : lookupKeys data kb = some macs) (h4 : macs ≠ [])
    (h5 : macs.find? (fun m => decide (m.name = sanitize_name n)) = some mac)
    (hwf : ∀ t ∈ mac.commands, wellFormed t = true)
    (hfail : ∃ t ∈ mac.commands, ∃ j ∈ templateRefs t,
      ((resolve args0 (extract_indices mac.commands) env.promptFn).1).length ≤ j) :
    ∃ t ∈ mac.commands,
      (∃ j ∈ templateRefs t,
        ((resolve args0 (extract_indices mac.commands) env.promptFn).1).length ≤ j) ∧
      runMak env data (some kb) (some n) args0 shell =
        RunOutcome.fail (missingArgDiag shell t) ∧
      ranProcess (runMak env data (some kb) (some n) args0 shell) = none ∧
      emittedLines (runMak env data (some kb) (some n) args0 shell) = [] ∧
      exitStatus (runMak env data (some kb) (some n) args0 shell) = 1 := by
  have hrun := runMak_reaches_render env data kb n macs mac args0 shell h1 h2 h3 h4 h5
  obtain ⟨t, ht, hmiss, hex⟩ := renderAll_missing mac.commands
    ((resolve args0 (extract_indices mac.commands) env.promptFn).1) hwf hfail
  rw [hmiss] at hrun
  simp only [] at hrun
  refine ⟨t, ht, hex, hrun, ?_, ?_, ?_⟩
  · rw [hrun]
    rfl
  · rw [hrun]
    rfl
  · rw [hrun]
    rfl

/-- Witness for claim C4 at the documented example: rendering echo {2}
against the two supplied arguments aborts the run before any sub-process,
with the diagnostic naming the template. -/
theorem c4_missing_argument_aborts_witness :
    runMak ⟨fun _ _ => none, fun _ => "", fun _ => 0⟩
      [("k", [⟨"m", ["echo {2}"]⟩])] (some "k") (some "m") ["a", "b"] false =
      RunOutcome.fail (missingArgDiag false "echo {2}") ∧
    ranProcess (runMak ⟨fun _ _ => none, fun _ => "", fun _ => 0⟩
      [("k", [⟨"m", ["echo {2}"]⟩])] (some "k") (some "m") ["a", "b"] false) = none ∧
    exitStatus (runMak ⟨fun _ _ => none, fun _ => "", fun _ => 0⟩
      [("k", [⟨"m", ["echo {2}"]⟩])] (some "k") (some "m") ["a", "b"] false) = 1 := by
  obtain ⟨t, ht, hex, hrun, hran, hemit, hexit⟩ :=
    c4_missing_argument_aborts ⟨fun _ _ => none, fun _ => "", fun _ => 0⟩
      [("k", [⟨"m", ["echo {2}"]⟩])] "k" "m" [⟨"m", ["echo {2}"]⟩] ⟨"m", ["echo {2}"]⟩
      ["a", "b"] false (by decide) (by decide) (by decide) (by decide) (by decide)
      (by decide) (by decide)
  simp only [List.mem_singleton] at ht
  subst ht
  exact ⟨hrun, hran, hexit⟩
